import Mathlib

/-!
Verification of the name-normalization, matching and aggregation engine of
the political conflict analysis package (normalizers.py, matchers.py,
types.py, validators.py, analyzers.py).

Strings are embedded as lists of characters; every Python string operation
used by the engine (str.lower, str.strip, str.split, and the regular
expressions of the pipelines) is given an executable ASCII-scope embedding.
Floats are modelled as rationals.  Python code that raises is embedded with
Except; code that skips a bad row is embedded with Option.  The rapidfuzz
string metrics and the remote Claude API are third-party collaborators and
are kept abstract (bounded score functions, an abstract call outcome).
-/

namespace PCA

/-- Whitespace as Python's str.strip and the regex class backslash-s see it
(ASCII scope). -/
def pySpace (c : Char) : Bool :=
  c = ' ' || c = '\t' || c = '\n' || c = '\r' || c = '\x0b' || c = '\x0c'

/-- Word characters of the regex class backslash-w (ASCII scope). -/
def isWordChar (c : Char) : Bool :=
  ('a' ≤ c && c ≤ 'z') || ('A' ≤ c && c ≤ 'Z') || ('0' ≤ c && c ≤ '9') || c = '_'

/-- ASCII lower-casing, as str.lower acts on the ASCII range. -/
def asciiLower (c : Char) : Char :=
  if 'A' ≤ c && c ≤ 'Z' then Char.ofNat (c.toNat + 32) else c

def lowerL (s : List Char) : List Char := s.map asciiLower

/-- str.strip: drop whitespace from both ends. -/
def stripPy (s : List Char) : List Char :=
  ((s.dropWhile pySpace).reverse.dropWhile pySpace).reverse

/-- re.sub replacing each whitespace run by one space, scanning with a flag
for being inside a run. -/
def collapseWsAux : Bool → List Char → List Char
  | _, [] => []
  | prev, c :: cs =>
    if pySpace c then
      if prev then collapseWsAux true cs else ' ' :: collapseWsAux true cs
    else c :: collapseWsAux false cs

def collapseWs (s : List Char) : List Char := collapseWsAux false s

/-- str.split with no separator: whitespace-delimited words, no empties. -/
def splitWsAux : List Char → List Char → List (List Char)
  | acc, [] => if acc.isEmpty then [] else [acc.reverse]
  | acc, c :: cs =>
    if pySpace c then
      if acc.isEmpty then splitWsAux [] cs else acc.reverse :: splitWsAux [] cs
    else splitWsAux (c :: acc) cs

def splitWs (s : List Char) : List (List Char) := splitWsAux [] s

/-- The join of words by single spaces, as a space-join of a split result. -/
def joinWords (ws : List (List Char)) : List Char := List.intercalate [' '] ws

/-- str.split on one character; empty parts are kept, as Python keeps them. -/
def splitCharAux (sep : Char) : List Char → List Char → List (List Char)
  | acc, [] => [acc.reverse]
  | acc, c :: cs =>
    if c = sep then acc.reverse :: splitCharAux sep [] cs
    else splitCharAux sep (c :: acc) cs

def splitChar (sep : Char) (s : List Char) : List (List Char) := splitCharAux sep [] s

/-- str.rstrip with a set of characters. -/
def rstripAny (cset : List Char) (s : List Char) : List Char :=
  (s.reverse.dropWhile (fun c => cset.contains c)).reverse

/-- Python max(parts, key=len): the first part of maximal length. -/
def maxByLen : List (List Char) → List Char
  | [] => []
  | p :: ps => ps.foldl (fun best q => if q.length > best.length then q else best) p

/-- The literal pat occurs in s at offset i. -/
def litAt (pat s : List Char) (i : Nat) : Bool :=
  (s.drop i).take pat.length == pat

/-- Python substring membership, pat in s. -/
def containsSub (pat s : List Char) : Bool :=
  (List.range (s.length + 1)).any (fun i => litAt pat s i)

/-- No word character stands just before offset i: the regex word boundary
for a pattern whose first character is a word character. -/
def boundaryBefore (s : List Char) (i : Nat) : Bool :=
  match i with
  | 0 => true
  | j + 1 =>
    match s.get? j with
    | none => true
    | some c => !(isWordChar c)

/-- No word character stands at offset i: the word boundary after a pattern
whose last character is a word character. -/
def boundaryAfter (s : List Char) (i : Nat) : Bool :=
  match s.get? i with
  | none => true
  | some c => !(isWordChar c)

/-- Matcher (returning the end offset) for a regex of the form
boundary-literal-boundary where the literal begins and ends with a word
character; covers the abbreviation, DBA-phrase and union-noise word patterns. -/
def wordPatAt (pat s : List Char) (i : Nat) : Option Nat :=
  if boundaryBefore s i && litAt pat s i && boundaryAfter s (i + pat.length) then
    some (i + pat.length)
  else none

/-- The eight expansions of the d-dot?-b-dot?-a-dot? DBA regex in the order
the backtracking re engine tries them (each optional dot taken greedily). -/
def dbaVariants : List (List Char) :=
  [String.data "d.b.a.", String.data "d.b.a", String.data "d.ba.", String.data "d.ba",
   String.data "db.a.", String.data "db.a", String.data "dba.", String.data "dba"]

/-- Trailing word boundary of one DBA expansion: after a final dot the
boundary needs a word character next; after the final letter it needs none. -/
def dbaTailOk (v s : List Char) (e : Nat) : Bool :=
  if v.getLast? = some '.' then
    match s.get? e with
    | some c => isWordChar c
    | none => false
  else boundaryAfter s e

/-- Matcher for the DBA regex with its leading word boundary. -/
def dbaPatAt (s : List Char) (i : Nat) : Option Nat :=
  if boundaryBefore s i then
    dbaVariants.findSome? (fun v =>
      if litAt v s i && dbaTailOk v s (i + v.length) then some (i + v.length) else none)
  else none

/-- The length of the leading digit run. -/
def countDigits : List Char → Nat
  | [] => 0
  | c :: cs => if '0' ≤ c && c ≤ '9' then countDigits cs + 1 else 0

/-- Matcher for the union-noise regex boundary, "local ", digits, boundary. -/
def localNumAt (s : List Char) (i : Nat) : Option Nat :=
  if boundaryBefore s i && litAt (String.data "local ") s i then
    let d := countDigits (s.drop (i + 6))
    if d > 0 && boundaryAfter s (i + 6 + d) then some (i + 6 + d) else none
  else none

/-- Matcher for the union-noise regex boundary, digits, "rn", boundary. -/
def numRnAt (s : List Char) (i : Nat) : Option Nat :=
  if boundaryBefore s i then
    let d := countDigits (s.drop i)
    if d > 0 && litAt (String.data "rn") s (i + d) && boundaryAfter s (i + d + 2) then
      some (i + d + 2)
    else none
  else none

/-- Matcher for a plain literal with no boundaries, as str.replace and
str.split locate occurrences. -/
def plainAt (pat s : List Char) (i : Nat) : Option Nat :=
  if litAt pat s i then some (i + pat.length) else none

/-- Left-to-right non-overlapping match scan, as the re module and
str.replace scan: take the match at the current position if any and continue
past its end.  The fuel only bounds the walk; length + 1 always suffices
because every step advances. -/
def scanAux (m : Nat → Option Nat) (n : Nat) (i : Nat) : Nat → List (Nat × Nat)
  | 0 => []
  | fuel + 1 =>
    if n ≤ i then []
    else
      match m i with
      | some j => (i, j) :: scanAux m n (max j (i + 1)) fuel
      | none => scanAux m n (i + 1) fuel

def scanM (m : List Char → Nat → Option Nat) (s : List Char) : List (Nat × Nat) :=
  scanAux (m s) s.length 0 (s.length + 1)

/-- Rebuild a string around a list of disjoint ascending matches, putting rep
in place of each matched span. -/
def rebuild (s rep : List Char) : List (Nat × Nat) → Nat → List Char
  | [], pos => s.drop pos
  | (a, b) :: rest, pos => (s.drop pos).take (a - pos) ++ rep ++ rebuild s rep rest b

/-- re.sub of every match of the matcher by rep. -/
def replaceMatches (m : List Char → Nat → Option Nat) (rep s : List Char) : List Char :=
  rebuild s rep (scanM m s) 0

/-- The final piece of re.split: the text after the last match of the scan,
or none when nothing matched. -/
def afterLastMatch (ms : List (Nat × Nat)) (s : List Char) : Option (List Char) :=
  match ms.getLast? with
  | none => none
  | some (_, b) => some (s.drop b)

/-! The grouping pipeline: EntityNormalizer of normalizers.py. -/

/-- The business suffix set of EntityNormalizer (normalizers.py line 39). -/
def business_suffixes : List (List Char) :=
  ["inc", "inc.", "incorporated",
   "corp", "corp.", "corporation",
   "company", "co", "co.",
   "llc", "l.l.c.",
   "ltd", "ltd.", "limited",
   "lp", "l.p.",
   "llp", "l.l.p.",
   "pllc", "p.l.l.c.",
   "enterprise", "enterprises",
   "group", "groups",
   "services", "service",
   "solutions", "solution",
   "systems", "system",
   "associates", "associate",
   "partners", "partner",
   "holdings", "holding",
   "international", "intl"].map String.data

/-- The stop word set of EntityNormalizer. -/
def stop_words : List (List Char) :=
  ["the", "a", "an", "this", "that", "these", "those"].map String.data

/-- The DBA pattern matchers of EntityNormalizer, in source order. -/
def dba_patterns_grouping : List (List Char → Nat → Option Nat) :=
  [wordPatAt (String.data "doing business as"), dbaPatAt,
   wordPatAt (String.data "aka"), wordPatAt (String.data "also known as"),
   wordPatAt (String.data "operating as"), wordPatAt (String.data "trading as")]

/-- The character class kept by _basic_clean: word, whitespace, ampersand,
slash, hyphen, dot. -/
def keepCharGrouping (c : Char) : Bool :=
  isWordChar c || pySpace c || c = '&' || c = '/' || c = '-' || c = '.'

def replaceWordPat (pat rep s : List Char) : List Char :=
  replaceMatches (wordPatAt pat) rep s

/-- EntityNormalizer._basic_clean: lower-case and strip, collapse whitespace,
drop punctuation outside the kept class, expand the four street
abbreviations as whole words. -/
def basic_clean (name : List Char) : List Char :=
  let c1 := stripPy (lowerL name)
  let c2 := collapseWs c1
  let c3 := c2.filter keepCharGrouping
  let c4 := replaceWordPat (String.data "st") (String.data "street") c3
  let c5 := replaceWordPat (String.data "ave") (String.data "avenue") c4
  let c6 := replaceWordPat (String.data "rd") (String.data "road") c5
  replaceWordPat (String.data "blvd") (String.data "boulevard") c6

/-- EntityNormalizer._handle_dba_patterns: for the first pattern that occurs,
the stripped text after its last occurrence is returned when non-empty;
otherwise the next pattern is tried, and the input is returned when no
pattern yields anything. -/
def handle_dba_patterns_go (name : List Char) :
    List (List Char → Nat → Option Nat) → List Char
  | [] => name
  | m :: ms =>
    match afterLastMatch (scanM m name) name with
    | some tail =>
      let after := stripPy tail
      if after.isEmpty then handle_dba_patterns_go name ms else after
    | none => handle_dba_patterns_go name ms

def handle_dba_patterns (name : List Char) : List Char :=
  handle_dba_patterns_go name dba_patterns_grouping

/-- EntityNormalizer._handle_slash (shortened name): keep the
longest stripped slash-separated part (the first on ties, as Python max
does). -/
def handle_slash (name : List Char) : List Char :=
  if name.contains '/' then
    let parts := (splitChar '/' name).map stripPy
    if parts.length > 1 then maxByLen parts else name
  else name

/-- EntityNormalizer._remove_business_suffixes: drop every word that, with
trailing punctuation stripped and lower-cased, is a business suffix; on an
empty result keep the input. -/
def remove_business_suffixes (name : List Char) : List Char :=
  let ws := splitWs name
  let filtered := ws.filter (fun w =>
    !(business_suffixes.contains (lowerL (rstripAny (String.data ".,;:") w))))
  if filtered.isEmpty then name else joinWords filtered

/-- EntityNormalizer._remove_stop_words. -/
def remove_stop_words (name : List Char) : List Char :=
  let ws := splitWs name
  let filtered := ws.filter (fun w => !(stop_words.contains (lowerL w)))
  if filtered.isEmpty then name else joinWords filtered

def nonWordNonSpace (c : Char) : Bool := !(isWordChar c || pySpace c)

/-- EntityNormalizer._final_cleanup: collapse and strip whitespace, then drop
the trailing and the leading run of non-word non-space characters. -/
def final_cleanup (name : List Char) : List Char :=
  let a := stripPy (collapseWs name)
  let b := (a.reverse.dropWhile nonWordNonSpace).reverse
  b.dropWhile nonWordNonSpace

/-- EntityNormalizer.normalize_entity_name, the grouping pipeline. -/
def normalize_entity_nameL (name : List Char) : List Char :=
  if name.isEmpty || (stripPy name).isEmpty then []
  else
    final_cleanup (remove_stop_words (remove_business_suffixes
      (handle_slash (handle_dba_patterns (basic_clean name)))))

def normalize_entity_name (name : String) : String :=
  String.mk (normalize_entity_nameL name.data)

/-! The matching pipeline: FuzzyMatcher of matchers.py. -/

/-- The character class kept by the matching pipeline: word, whitespace,
ampersand, slash, hyphen (no dot). -/
def keepCharMatching (c : Char) : Bool :=
  isWordChar c || pySpace c || c = '&' || c = '/' || c = '-'

/-- The DBA pattern matchers of _normalize_entity_without_slash_handling, in
source order. -/
def dba_patterns_matching : List (List Char → Nat → Option Nat) :=
  [wordPatAt (String.data "doing business as"), dbaPatAt,
   wordPatAt (String.data "aka"), wordPatAt (String.data "also known as")]

/-- The matching pipeline's DBA stage: the first pattern that occurs rewrites
the string to the stripped text after its last occurrence (even when empty)
and the loop breaks. -/
def handle_dba_matching_go (s : List Char) :
    List (List Char → Nat → Option Nat) → List Char
  | [] => s
  | m :: ms =>
    match afterLastMatch (scanM m s) s with
    | some tail => stripPy tail
    | none => handle_dba_matching_go s ms

/-- The Person-of-Company stage: when the string splits on " of " into
exactly two parts, keep the stripped second part. -/
def handle_of (s : List Char) : List Char :=
  if containsSub (String.data " of ") s then
    match scanM (plainAt (String.data " of ")) s with
    | [(_, b)] => stripPy (s.drop b)
    | _ => s
  else s

/-- The SEIU stage: a string starting with "seiu " has every occurrence of
"seiu " replaced by the full union name (str.replace replaces all). -/
def seiu_expand (s : List Char) : List Char :=
  if litAt (String.data "seiu ") s 0 then
    replaceMatches (plainAt (String.data "seiu "))
      (String.data "service employees international union ") s
  else s

/-- The union-noise matchers, in source order. -/
def union_noise_matchers : List (List Char → Nat → Option Nat) :=
  [wordPatAt (String.data "international"), localNumAt,
   wordPatAt (String.data "local"),
   wordPatAt (String.data "small contributor committee"),
   wordPatAt (String.data "candidate pac"), wordPatAt (String.data "pac"),
   wordPatAt (String.data "committee"), numRnAt,
   wordPatAt (String.data "state"), wordPatAt (String.data "refuse unit"),
   wordPatAt (String.data "healthcare workers west"),
   wordPatAt (String.data "interns and resident physician")]

/-- The union stage: when "union" occurs as a substring, erase each noise
pattern in turn, then collapse and strip whitespace. -/
def union_noise (s : List Char) : List Char :=
  if containsSub (String.data "union") s then
    let t := union_noise_matchers.foldl (fun acc m => replaceMatches m [] acc) s
    stripPy (collapseWs t)
  else s

/-- FuzzyMatcher._normalize_entity_without_slash_handling, the matching
pipeline. -/
def normalize_entity_without_slash_handlingL (entity : List Char) : List Char :=
  if entity.isEmpty then []
  else
    let n1 := stripPy (lowerL entity)
    let n2 := n1.filter keepCharMatching
    let n3 := handle_dba_matching_go n2 dba_patterns_matching
    let n4 := handle_of n3
    let n5 := seiu_expand n4
    union_noise n5

def normalize_entity_without_slash_handling (entity : String) : String :=
  String.mk (normalize_entity_without_slash_handlingL entity.data)

/-- FuzzyMatcher._normalize_entity delegates to the slash-free pipeline. -/
def normalize_entity (entity : String) : String :=
  normalize_entity_without_slash_handling entity

/-! Similarity scoring and matching: FuzzyMatcher, SimilarityConfig,
ConflictMatch. -/

/-- The four rapidfuzz score functions are third-party library calls; the
embedding keeps them abstract.  Each returns a value in `[0, 100]` and
returns `100` on identical strings; facts used here are hypotheses of the
theorems or are instantiated at a model obeying them. -/
structure FuzzMetrics where
  wratio : String → String → ℚ
  partial_ratio : String → String → ℚ
  token_sort_ratio : String → String → ℚ
  token_set_ratio : String → String → ℚ

/-- A model of the rapidfuzz metrics good at the inputs where the concrete
theorems evaluate them: every rapidfuzz ratio is 100 on two identical
non-empty strings, and all values lie in `[0, 100]`. -/
def modelMetrics : FuzzMetrics where
  wratio a b := if a = b then 100 else 0
  partial_ratio a b := if a = b then 100 else 0
  token_sort_ratio a b := if a = b then 100 else 0
  token_set_ratio a b := if a = b then 100 else 0

/-- types.py SimilarityConfig (floats modelled as rationals). -/
structure SimilarityConfig where
  wratio_weight : ℚ
  partial_ratio_weight : ℚ
  token_sort_weight : ℚ
  token_set_weight : ℚ
  business_context_bonus : ℚ
  location_match_bonus : ℚ
  industry_match_bonus : ℚ
deriving DecidableEq

/-- SimilarityConfig construction with its __post_init__ check: the four
weights must sum to 1 within the 0.001 tolerance, else ValueError. -/
def mkSimilarityConfig (w1 w2 w3 w4 b1 b2 b3 : ℚ) : Except String SimilarityConfig :=
  if |w1 + w2 + w3 + w4 - 1| > 1 / 1000 then
    Except.error "Similarity weights must sum to 1.0"
  else Except.ok ⟨w1, w2, w3, w4, b1, b2, b3⟩

/-- The default SimilarityConfig field values of types.py. -/
def defaultSimilarityConfig : SimilarityConfig :=
  ⟨4/10, 3/10, 2/10, 1/10, 5, 3, 2⟩

/-- FuzzyMatcher.calculate_similarity: 0 when either input is empty,
otherwise the weighted combination of the four metrics on the two
matching-pipeline-normalized names. -/
def calculate_similarity (M : FuzzMetrics) (config : SimilarityConfig)
    (entity1 entity2 : String) : ℚ :=
  if entity1 = "" || entity2 = "" then 0
  else
    let n1 := normalize_entity entity1
    let n2 := normalize_entity entity2
    M.wratio n1 n2 * config.wratio_weight
      + M.partial_ratio n1 n2 * config.partial_ratio_weight
      + M.token_sort_ratio n1 n2 * config.token_sort_weight
      + M.token_set_ratio n1 n2 * config.token_set_weight

inductive MatchType where
  | NAME
  | EMPLOYER
deriving DecidableEq

structure ConflictMatch where
  beneficiary : String
  contributor : String
  similarity : ℚ
  match_type : MatchType
  politician : String
deriving DecidableEq

/-- ConflictMatch.__post_init__: an out-of-range similarity or a
whitespace-only beneficiary or contributor raises ValueError. -/
def mkConflictMatch (b c : String) (sim : ℚ) (mt : MatchType) (pol : String) :
    Except String ConflictMatch :=
  if ¬(0 ≤ sim ∧ sim ≤ 100) then Except.error "Similarity must be between 0 and 100"
  else if stripPy b.data = [] then Except.error "Beneficiary cannot be empty"
  else if stripPy c.data = [] then Except.error "Contributor cannot be empty"
  else Except.ok ⟨b, c, sim, mt, pol⟩

/-- FuzzyMatcher._get_entity_variants. -/
def get_entity_variants (entity : String) : List String :=
  if entity.data.isEmpty then [""]
  else
    let std := normalize_entity entity
    let v0 : List String := if std ≠ "" then [std] else []
    let v1 :=
      if entity.data.contains '/' then
        ((splitChar '/' entity.data).map stripPy).foldl
          (fun vs part =>
            if !part.isEmpty then
              let np := normalize_entity_without_slash_handling (String.mk part)
              if np ≠ "" && !(vs.contains np) then vs ++ [np] else vs
            else vs) v0
      else v0
    if v1.isEmpty then [""] else v1

/-- The inner double loop of find_matches: the running best similarity over
all beneficiary-variant and contributor-variant pairs, starting at 0 and
replaced only by a strictly larger score (the best textual forms the source
also tracks do not feed the returned matches). -/
def best_similarity (M : FuzzMetrics) (config : SimilarityConfig)
    (bvs cvs : List String) : ℚ :=
  bvs.foldl (fun acc bv =>
    cvs.foldl (fun acc2 cv =>
      let sim := calculate_similarity M config bv cv
      if sim > acc2 then sim else acc2) acc) 0

/-- The per-contributor loop of find_matches; a ValueError raised while
building a ConflictMatch aborts the whole call, so the loop is embedded in
Except. -/
def find_matches_go (M : FuzzMetrics) (config : SimilarityConfig)
    (beneficiary : String) (bvs : List String) (threshold : ℚ)
    (politician : String) : List String → Except String (List ConflictMatch)
  | [] => Except.ok []
  | c :: cs =>
    let best := best_similarity M config bvs (get_entity_variants c)
    if best ≥ threshold then
      match mkConflictMatch beneficiary c best MatchType.NAME politician with
      | Except.error e => Except.error e
      | Except.ok m =>
        match find_matches_go M config beneficiary bvs threshold politician cs with
        | Except.error e => Except.error e
        | Except.ok ms => Except.ok (m :: ms)
    else find_matches_go M config beneficiary bvs threshold politician cs

/-- FuzzyMatcher.find_matches. -/
def find_matches (M : FuzzMetrics) (config : SimilarityConfig)
    (beneficiary : String) (contributors : List String) (threshold : ℚ)
    (politician : String) : Except String (List ConflictMatch) :=
  find_matches_go M config beneficiary (get_entity_variants beneficiary)
    threshold politician contributors

/-! Entity grouping: EntityNormalizer.group_related_entities and
_select_canonical_name. -/

structure EntityGroup where
  canonical_name : String
  aliases : List String
  original_names : List String
  confidence_score : ℚ
deriving DecidableEq

/-- Matcher for the canonical-name regex boundary, word char, dot, word
char, boundary (a one-letter-dot-letter abbreviation). -/
def abbrevPatAt (s : List Char) (i : Nat) : Option Nat :=
  if boundaryBefore s i then
    match s.get? i, s.get? (i + 1), s.get? (i + 2) with
    | some a, some d, some b2 =>
      if isWordChar a && d = '.' && isWordChar b2 && boundaryAfter s (i + 3) then
        some (i + 3)
      else none
    | _, _, _ => none
  else none

def hasAbbrevPattern (s : List Char) : Bool :=
  (List.range (s.length + 1)).any (fun i => (abbrevPatAt s i).isSome)

def hasDigit (s : List Char) : Bool := s.any (fun c => '0' ≤ c && c ≤ '9')

/-- re.match of caret, capital, whitespace run, capital: the name starts
with two separate single capital letters. -/
def startsWithInitials (s : List Char) : Bool :=
  match s with
  | [] => false
  | c :: rest =>
    if 'A' ≤ c && c ≤ 'Z' then
      let k := (rest.takeWhile pySpace).length
      if k ≥ 1 then
        match rest.get? k with
        | some c2 => 'A' ≤ c2 && c2 ≤ 'Z'
        | none => false
      else false
    else false

/-- The _select_canonical_name score of one candidate name. -/
def name_score (name : String) : ℚ :=
  (name.data.length : ℚ) * (1 / 10)
    + (if !hasAbbrevPattern name.data then 10 else 0)
    + (if !hasDigit name.data then 5 else 0)
    + (if !startsWithInitials name.data then 5 else 0)

/-- Python string comparison: lexicographic on code points. -/
def pyStrLtL : List Char → List Char → Bool
  | [], [] => false
  | [], _ :: _ => true
  | _ :: _, [] => false
  | a :: xs, b :: ys => if a < b then true else if b < a then false else pyStrLtL xs ys

/-- Python tuple comparison on (score, name). -/
def scoredLt (x y : ℚ × String) : Bool :=
  x.1 < y.1 || (x.1 = y.1 && pyStrLtL x.2.data y.2.data)

/-- Stable descending insertion, as list.sort(reverse=True) orders score
tuples. -/
def insertDesc (x : ℚ × String) : List (ℚ × String) → List (ℚ × String)
  | [] => [x]
  | y :: ys => if scoredLt y x then x :: y :: ys else y :: insertDesc x ys

def sortDesc (l : List (ℚ × String)) : List (ℚ × String) := l.foldr insertDesc []

/-- EntityNormalizer._select_canonical_name. -/
def select_canonical_name (names : List String) : String :=
  match names with
  | [] => ""
  | [n] => n
  | _ =>
    let scored := names.map (fun n => (name_score n, n))
    match sortDesc scored with
    | [] => ""
    | top :: _ => top.2

/-- Append an entity under its normalized key in the insertion-ordered dict
of lists (a missing key is created at the end, as dicts preserve insertion
order). -/
def insertEntity : List (String × List String) → String → String →
    List (String × List String)
  | [], key, e => [(key, [e])]
  | (k, es) :: rest, key, e =>
    if k = key then (k, es ++ [e]) :: rest
    else (k, es) :: insertEntity rest key e

/-- One loop iteration of group_related_entities: normalize the entity and
append it under its key, skipping entities whose normalization is empty
("Only include non-empty normalized names"). -/
def insertStep (acc : List (String × List String)) (entity : String) :
    List (String × List String) :=
  let n := normalize_entity_name entity
  if n ≠ "" then insertEntity acc n entity else acc

/-- The normalized_entities dict of group_related_entities: entities whose
grouping normalization is empty are not included. -/
def buildNormalizedEntities (entities : List String) : List (String × List String) :=
  entities.foldl insertStep []

/-- EntityNormalizer.group_related_entities.  The unused threshold parameter
of the source is dropped.  aliases is list(set(...)), whose iteration order
CPython leaves unspecified; the embedding keeps deduplicated names. -/
def group_related_entities (entities : List String) : List EntityGroup :=
  (buildNormalizedEntities entities).map (fun p =>
    { canonical_name := select_canonical_name p.2, aliases := p.2.dedup,
      original_names := p.2, confidence_score := 1 })

/-! Aggregation: ConflictAnalyzer._create_aggregated_conflict and the row
and detail types of types.py. -/

inductive VoteType where
  | AYE
  | NAY
  | ABSTAIN
  | ABSENT
  | RECUSED
deriving DecidableEq

inductive VoteOutcome where
  | PASSED
  | FAILED
deriving DecidableEq

/-- VoteType(s): ValueError on an unrecognized value. -/
def parseVoteType (s : String) : Except String VoteType :=
  if s = "AYE" then Except.ok VoteType.AYE
  else if s = "NAY" then Except.ok VoteType.NAY
  else if s = "ABSTAIN" then Except.ok VoteType.ABSTAIN
  else if s = "ABSENT" then Except.ok VoteType.ABSENT
  else if s = "RECUSED" then Except.ok VoteType.RECUSED
  else Except.error "not a valid VoteType"

/-- VoteOutcome(s): ValueError on an unrecognized value. -/
def parseVoteOutcome (s : String) : Except String VoteOutcome :=
  if s = "PASSED" then Except.ok VoteOutcome.PASSED
  else if s = "FAILED" then Except.ok VoteOutcome.FAILED
  else Except.error "not a valid VoteOutcome"

structure ContributionDetail where
  name : String
  employer : Option String
  amount : ℚ
  date : String
  transaction_type : String
deriving DecidableEq

/-- ContributionDetail.__post_init__: a negative amount or whitespace-only
contributor name raises ValueError. -/
def mkContributionDetail (name : String) (employer : Option String) (amount : ℚ)
    (date ttype : String) : Except String ContributionDetail :=
  if amount < 0 then Except.error "Contribution amount cannot be negative"
  else if stripPy name.data = [] then Except.error "Contributor name cannot be empty"
  else Except.ok ⟨name, employer, amount, date, ttype⟩

structure VoteDetail where
  date : String
  vote : VoteType
  item : String
  outcome : VoteOutcome
  beneficiary : String
deriving DecidableEq

/-- A VoteDetail as _create_aggregated_conflict builds one: the enum parses
run first (argument evaluation order), then the __post_init__ checks. -/
def mkVoteDetail (date voteStr item outcomeStr beneficiary : String) :
    Except String VoteDetail :=
  match parseVoteType voteStr with
  | Except.error e => Except.error e
  | Except.ok v =>
    match parseVoteOutcome outcomeStr with
    | Except.error e => Except.error e
    | Except.ok o =>
      if stripPy item.data = [] then Except.error "Vote item description cannot be empty"
      else if stripPy beneficiary.data = [] then Except.error "Beneficiary cannot be empty"
      else Except.ok ⟨date, v, item, o, beneficiary⟩

/-- A cleaned campaign finance row as _create_aggregated_conflict reads it:
the data processor guarantees Contributor, Amount and Date are present and
the amount already numeric (floats modelled as rationals); Employer may be
missing or empty. -/
structure ContributionRow where
  contributor : String
  employer : Option String
  amount : ℚ
  date : String
  transaction_type : String
deriving DecidableEq

/-- A cleaned minutes row with the fields the aggregation reads. -/
structure MinutesRow where
  date : String
  vote : String
  item : String
  outcome : String
  beneficiary : String
deriving DecidableEq

/-- The row test of the contribution-pulling loop: the row's Contributor or
its Employer field equals the contributor string (a missing employer equals
no string). -/
def rowMatches (r : ContributionRow) (c : String) : Bool :=
  r.contributor == c || r.employer == some c

/-- The inner row scan of the contribution-pulling loop (analyzers.py
235-249): a row is pulled for a contributor string when its Contributor or
its Employer field equals it; a ValueError from the detail constructor
skips the row. -/
def pullForContributor (c : String) (rows : List ContributionRow) :
    List ContributionDetail :=
  rows.filterMap (fun row =>
    if rowMatches row c then
      (mkContributionDetail row.contributor row.employer row.amount row.date
        row.transaction_type).toOption
    else none)

/-- The contribution-pulling double loop of _create_aggregated_conflict. -/
def find_contribution_details (contributors : List String)
    (rows : List ContributionRow) : List ContributionDetail :=
  contributors.flatMap (fun c => pullForContributor c rows)

def pullForBeneficiary (b : String) (rows : List MinutesRow) : List VoteDetail :=
  rows.filterMap (fun row =>
    if row.beneficiary == b then
      (mkVoteDetail row.date row.vote row.item row.outcome b).toOption
    else none)

/-- The vote-pulling double loop of _create_aggregated_conflict. -/
def find_vote_details (beneficiaries : List String) (rows : List MinutesRow) :
    List VoteDetail :=
  beneficiaries.flatMap (fun b => pullForBeneficiary b rows)

structure AggregatedConflict where
  beneficiary : String
  original_beneficiaries : List String
  contributors : List String
  contributor_summary : String
  total_contributions : ℚ
  contribution_count : Nat
  vote_count : Nat
  contribution_details : List ContributionDetail
  vote_details : List VoteDetail
  match_types : List MatchType
  avg_similarity : ℚ
  max_similarity : ℚ
  min_similarity : ℚ
  politician : String

/-- The employer bucket of one detail in _create_contributor_summary: a
missing or empty employer falls in the Individual bucket (Python `or`). -/
def summaryKey (d : ContributionDetail) : String :=
  match d.employer with
  | none => "Individual"
  | some e => if e = "" then "Individual" else e

/-- ConflictAnalyzer._create_contributor_summary. -/
def create_contributor_summary (contributors : List String)
    (details : List ContributionDetail) : String :=
  match contributors with
  | [] => ""
  | [c] => c
  | _ =>
    let employerGroups := details.foldl (fun acc d => insertEntity acc (summaryKey d) d.name) []
    let parts := employerGroups.map (fun p =>
      if p.1 = "Individual" then toString p.2.length ++ " individual contributor(s)"
      else toString p.2.length ++ " from " ++ p.1)
    String.intercalate "; " parts

/-- ConflictAnalyzer._create_aggregated_conflict.  list(set(...)) iteration
order is unspecified in CPython, so the deduplicated lists are embedded with
List.dedup; the claims settled here do not depend on that order.  An empty
match list raises ZeroDivisionError at the average similarity; the
AggregatedConflict __post_init__ checks run before the value is returned. -/
def create_aggregated_conflict (canonical_beneficiary : String)
    (match_list : List ConflictMatch) (minutes_data : List MinutesRow)
    (campaign_finance_data : List ContributionRow) :
    Except String AggregatedConflict :=
  let original_beneficiaries := (match_list.map ConflictMatch.beneficiary).dedup
  let contributors := (match_list.map ConflictMatch.contributor).dedup
  let contribution_details := find_contribution_details contributors campaign_finance_data
  let vote_details := find_vote_details original_beneficiaries minutes_data
  let total_contributions := (contribution_details.map ContributionDetail.amount).sum
  let match_types := (match_list.map ConflictMatch.match_type).dedup
  let contributor_summary := create_contributor_summary contributors contribution_details
  match match_list with
  | [] => Except.error "ZeroDivisionError: division by zero"
  | m0 :: mrest =>
    let similarities := (m0 :: mrest).map ConflictMatch.similarity
    let avg := similarities.sum / (similarities.length : ℚ)
    let mx := (mrest.map ConflictMatch.similarity).foldl max m0.similarity
    let mn := (mrest.map ConflictMatch.similarity).foldl min m0.similarity
    if total_contributions < 0 then
      Except.error "Total contributions cannot be negative"
    else if ¬(0 ≤ avg ∧ avg ≤ 100) then
      Except.error "Average similarity must be between 0 and 100"
    else
      Except.ok ⟨canonical_beneficiary, original_beneficiaries, contributors,
        contributor_summary, total_contributions, contribution_details.length,
        vote_details.length, contribution_details, vote_details, match_types,
        avg, mx, mn, m0.politician⟩

/-! Validation: ClaudeValidator and ConflictAnalyzer._validate_conflicts.
The network call and the JSON decoding are external; the embedding takes
the per-conflict outcome of _make_api_call (raising or exhausting retries
is the error case) and an abstract response parser. -/

structure ValidationVerdict where
  is_genuine : Bool
  confidence : String
  reasoning : String
deriving DecidableEq

/-- ClaudeValidator._parse_validation_response: a response whose JSON cannot
be extracted, decoded or field-validated yields the fail-open default
verdict instead of raising. -/
def parse_validation_response (parse : String → Option ValidationVerdict)
    (response : String) : ValidationVerdict :=
  match parse response with
  | some r => r
  | none => ⟨true, "low", "Failed to parse AI response"⟩

/-- ClaudeValidator.validate_conflict: any exception from the API call path
is caught and the conflict is treated as genuine with low confidence. -/
def validate_conflict (api_result : Except String String)
    (parse : String → Option ValidationVerdict) : Bool × String × String :=
  match api_result with
  | Except.error e => (true, "low", "Validation failed: " ++ e)
  | Except.ok resp =>
    let r := parse_validation_response parse resp
    (r.is_genuine, r.confidence, r.reasoning)

/-- ClaudeValidator.validate_conflicts_batch. -/
def validate_conflicts_batch {α : Type} (api : α → Except String String)
    (parse : String → Option ValidationVerdict) (conflicts : List α) :
    List (Bool × String × String) :=
  conflicts.map (fun c => validate_conflict (api c) parse)

/-- ConflictAnalyzer._validate_conflicts: zip the conflicts with their batch
verdicts and keep exactly those whose is_genuine is true. -/
def validate_conflicts {α : Type} (api : α → Except String String)
    (parse : String → Option ValidationVerdict) (conflicts : List α) : List α :=
  ((conflicts.zip (validate_conflicts_batch api parse conflicts)).filter
    (fun p => p.2.1)).map Prod.fst

/-! Side definitions used only to state and instantiate the theorems. -/

/-- A lower-case ASCII letter. -/
def isLowerAZ (c : Char) : Bool := 'a' ≤ c && c ≤ 'z'

/-- The detail a contribution row yields when its constructor checks pass. -/
def detail_of_row (r : ContributionRow) : ContributionDetail :=
  ⟨r.contributor, r.employer, r.amount, r.date, r.transaction_type⟩

/-- The documented range of the rapidfuzz metrics: every score lies in
`[0, 100]`. -/
def MetricsBounded (M : FuzzMetrics) : Prop :=
  ∀ a b, (0 ≤ M.wratio a b ∧ M.wratio a b ≤ 100) ∧
    (0 ≤ M.partial_ratio a b ∧ M.partial_ratio a b ≤ 100) ∧
    (0 ≤ M.token_sort_ratio a b ∧ M.token_sort_ratio a b ≤ 100) ∧
    (0 ≤ M.token_set_ratio a b ∧ M.token_set_ratio a b ≤ 100)

/-- Nonnegative weights summing to at most one (the sanity condition the
intended configurations satisfy; the production default sums to exactly 1). -/
def WeightsOk (config : SimilarityConfig) : Prop :=
  0 ≤ config.wratio_weight ∧ 0 ≤ config.partial_ratio_weight ∧
    0 ≤ config.token_sort_weight ∧ 0 ≤ config.token_set_weight ∧
    config.wratio_weight + config.partial_ratio_weight +
      config.token_sort_weight + config.token_set_weight ≤ 1

/-- A weight vector the tolerance check accepts although it sums to 1.0009:
the counterexample configuration for the score range claim. -/
def overToleranceConfig : SimilarityConfig :=
  ⟨4/10, 3/10, 2/10, 1009/10000, 5, 3, 2⟩

/-- The invariant of the normalized_entities dict: every key is a non-empty
normalized name, every bucket is non-empty and holds exactly the entities
normalizing to its key, and keys are distinct. -/
def GroupsWF (m : List (String × List String)) : Prop :=
  (∀ p ∈ m, p.1 ≠ "" ∧ p.2 ≠ [] ∧ ∀ x ∈ p.2, normalize_entity_name x = p.1) ∧
    (m.map Prod.fst).Nodup

/-! Helper lemmas shared by the claim theorems. -/

lemma mkConflictMatch_ok_fields {b c : String} {sim : ℚ} {mt : MatchType}
    {pol : String} {m : ConflictMatch}
    (h : mkConflictMatch b c sim mt pol = Except.ok m) :
    m = ⟨b, c, sim, mt, pol⟩ := by
  unfold mkConflictMatch at h
  split at h
  · exact absurd h (by simp)
  split at h
  · exact absurd h (by simp)
  split at h
  · exact absurd h (by simp)
  exact (Except.ok.injEq _ _ ▸ h).symm

lemma mkContributionDetail_ok {r : ContributionRow} (h0 : 0 ≤ r.amount)
    (h1 : stripPy r.contributor.data ≠ []) :
    mkContributionDetail r.contributor r.employer r.amount r.date
      r.transaction_type = Except.ok (detail_of_row r) := by
  unfold mkContributionDetail
  rw [if_neg (not_lt.mpr h0), if_neg h1]
  rfl

lemma validate_conflicts_cons {α : Type} (api : α → Except String String)
    (parse : String → Option ValidationVerdict) (x : α) (xs : List α) :
    validate_conflicts api parse (x :: xs) =
      if (validate_conflict (api x) parse).1 then x :: validate_conflicts api parse xs
      else validate_conflicts api parse xs := by
  unfold validate_conflicts validate_conflicts_batch
  simp only [List.map_cons, List.zip_cons_cons, List.filter_cons]
  by_cases hb : (validate_conflict (api x) parse).1
  · simp [hb]
  · simp [hb]

lemma flatMap_append_perm {α β : Type} (l : List α) (f g : α → List β) :
    (l.flatMap fun a => f a ++ g a).Perm (l.flatMap f ++ l.flatMap g) := by
  induction l with
  | nil => simp
  | cons x xs ih =>
    simp only [List.flatMap_cons]
    refine (ih.append_left (f x ++ g x)).trans ?_
    have h2 : ((g x ++ xs.flatMap f) ++ xs.flatMap g).Perm
        ((xs.flatMap f ++ g x) ++ xs.flatMap g) :=
      List.perm_append_comm.append_right _
    have h3 : (g x ++ (xs.flatMap f ++ xs.flatMap g)).Perm
        (xs.flatMap f ++ (g x ++ xs.flatMap g)) := by
      rw [← List.append_assoc, ← List.append_assoc]
      exact h2
    simpa [List.append_assoc] using h3.append_left (f x)

lemma flatMap_ite_replicate {β : Type} (p : String → Bool) (d : β) (cs : List String) :
    (cs.flatMap fun c => if p c then [d] else []) = List.replicate (cs.countP p) d := by
  induction cs with
  | nil => simp
  | cons c cs ih =>
    simp only [List.flatMap_cons, List.countP_cons, ih]
    by_cases hc : p c
    · simp [hc, List.replicate_succ]
    · simp [hc]

/-! C6: SimilarityConfig validation. -/

/-- C6: constructing a SimilarityConfig fails exactly when the four weights
differ from 1 by more than the 0.001 tolerance; a config accepted within the
tolerance is built and carries the given weights unchanged (never silently
corrected). -/
theorem c6_config_validation (w1 w2 w3 w4 b1 b2 b3 : ℚ) :
    ((∃ c, mkSimilarityConfig w1 w2 w3 w4 b1 b2 b3 = Except.ok c) ↔
      |w1 + w2 + w3 + w4 - 1| ≤ 1 / 1000) ∧
    (∀ c, mkSimilarityConfig w1 w2 w3 w4 b1 b2 b3 = Except.ok c →
      c.wratio_weight = w1 ∧ c.partial_ratio_weight = w2 ∧
      c.token_sort_weight = w3 ∧ c.token_set_weight = w4) := by
  by_cases h : |w1 + w2 + w3 + w4 - 1| > 1 / 1000
  · constructor
    · constructor
      · rintro ⟨c, hc⟩
        rw [mkSimilarityConfig, if_pos h] at hc
        exact absurd hc (by simp)
      · intro hle
        exact absurd h (not_lt.mpr hle)
    · intro c hc
      rw [mkSimilarityConfig, if_pos h] at hc
      exact absurd hc (by simp)
  · have hok : mkSimilarityConfig w1 w2 w3 w4 b1 b2 b3 =
        Except.ok ⟨w1, w2, w3, w4, b1, b2, b3⟩ := by
      rw [mkSimilarityConfig, if_neg h]
    constructor
    · exact ⟨fun _ => not_lt.mp h, fun _ => ⟨_, hok⟩⟩
    · intro c hc
      rw [hok] at hc
      injection hc with hc
      subst hc
      exact ⟨rfl, rfl, rfl, rfl⟩

/-! C7: fail-open validation. -/

/-- C7: when the API call for a conflict raises or exhausts its retries
(error outcome) or returns a response the parser cannot decode, the verdict
is genuine with low confidence, and _validate_conflicts keeps that conflict
in its output. -/
theorem c7_fail_open {α : Type} (conflicts : List α)
    (api : α → Except String String) (parse : String → Option ValidationVerdict)
    (c : α) (hmem : c ∈ conflicts)
    (hfail : (∃ e, api c = Except.error e) ∨
      (∃ r, api c = Except.ok r ∧ parse r = none)) :
    (validate_conflict (api c) parse).1 = true ∧
    (validate_conflict (api c) parse).2.1 = "low" ∧
    c ∈ validate_conflicts api parse conflicts := by
  have hvc : (validate_conflict (api c) parse).1 = true ∧
      (validate_conflict (api c) parse).2.1 = "low" := by
    rcases hfail with ⟨e, he⟩ | ⟨r, hr, hp⟩
    · simp [validate_conflict, he]
    · simp [validate_conflict, parse_validation_response, hr, hp]
  refine ⟨hvc.1, hvc.2, ?_⟩
  induction conflicts with
  | nil => cases hmem
  | cons x xs ih =>
    rw [validate_conflicts_cons]
    rcases List.mem_cons.mp hmem with rfl | hxs
    · rw [if_pos (by rw [hvc.1])]
      exact List.mem_cons_self _ _
    · by_cases hx : (validate_conflict (api x) parse).1
      · rw [if_pos hx]
        exact List.mem_cons_of_mem _ (ih hxs)
      · rw [if_neg hx]
        exact ih hxs

/-- Witness for C7 at a one-element conflict list whose API call errors. -/
theorem c7_fail_open_witness :
    (validate_conflict ((fun _ : Nat => (Except.error "boom" : Except String String)) 0)
        (fun _ => none)).1 = true ∧
    (validate_conflict ((fun _ : Nat => (Except.error "boom" : Except String String)) 0)
        (fun _ => none)).2.1 = "low" ∧
    0 ∈ validate_conflicts (fun _ : Nat => (Except.error "boom" : Except String String))
        (fun _ => none) [0] :=
  c7_fail_open [0] (fun _ => Except.error "boom") (fun _ => none) 0
    (List.mem_singleton.mpr rfl) (Or.inl ⟨"boom", rfl⟩)

/-! C8: contribution pulling multiplicity. -/

/-- C8: over rows whose amounts are non-negative and whose contributor names
are not whitespace-only (the cleaned-input contract), the pulled
contribution details are, as a multiset, one detail per (row, contributor
string) pair whose Contributor or Employer field equals that string: each
row appears once per matching collected string (twice when two different
strings match it, once when its Contributor and Employer both equal the same
single string). -/
theorem c8_contribution_pull (cs : List String) (rows : List ContributionRow)
    (hval : ∀ r ∈ rows, 0 ≤ r.amount ∧ stripPy r.contributor.data ≠ []) :
    (find_contribution_details cs rows).Perm
      (rows.flatMap fun r =>
        List.replicate (cs.countP (rowMatches r)) (detail_of_row r)) := by
  induction rows with
  | nil => simp [find_contribution_details, pullForContributor]
  | cons r rows ih =>
    have hre : ∀ c : String, pullForContributor c (r :: rows) =
        (if rowMatches r c then [detail_of_row r] else []) ++ pullForContributor c rows := by
      intro c
      unfold pullForContributor
      rw [List.filterMap_cons]
      by_cases hm : rowMatches r c
      · rw [if_pos hm, if_pos hm,
          mkContributionDetail_ok (hval r (List.mem_cons_self _ _)).1
            (hval r (List.mem_cons_self _ _)).2]
        rfl
      · rw [if_neg hm, if_neg hm]
        rfl
    have hval' : ∀ x ∈ rows, 0 ≤ x.amount ∧ stripPy x.contributor.data ≠ [] :=
      fun x hx => hval x (List.mem_cons_of_mem _ hx)
    have e1 : find_contribution_details cs (r :: rows) =
        cs.flatMap fun c =>
          (if rowMatches r c then [detail_of_row r] else []) ++ pullForContributor c rows := by
      unfold find_contribution_details
      exact List.flatMap_congr (fun c _ => hre c)
    rw [List.flatMap_cons, e1]
    refine (flatMap_append_perm cs _ _).trans ?_
    rw [flatMap_ite_replicate]
    exact (ih hval').append_left _

/-- Witness for C8: one row matched by one collected string through its
Contributor field and by another through its Employer field appears twice. -/
theorem c8_contribution_pull_witness :
    (find_contribution_details ["X", "Y"] [⟨"X", some "Y", 5, "d", "t"⟩]).Perm
      ([⟨"X", some "Y", 5, "d", "t"⟩].flatMap fun r =>
        List.replicate ((["X", "Y"] : List String).countP (rowMatches r))
          (detail_of_row r)) :=
  c8_contribution_pull ["X", "Y"] [⟨"X", some "Y", 5, "d", "t"⟩]
    (by decide)

/-! C9: aggregation conservation. -/

/-- C9: every AggregatedConflict the aggregation step returns counts its own
detail lists: contribution_count is the length of contribution_details,
total_contributions is the sum of their amounts, and vote_count is the
length of vote_details. -/
theorem c9_aggregation_conservation (canonical : String)
    (mlist : List ConflictMatch) (minutes : List MinutesRow)
    (rows : List ContributionRow) (c : AggregatedConflict)
    (h : create_aggregated_conflict canonical mlist minutes rows = Except.ok c) :
    c.contribution_count = c.contribution_details.length ∧
    c.total_contributions = (c.contribution_details.map ContributionDetail.amount).sum ∧
    c.vote_count = c.vote_details.length := by
  unfold create_aggregated_conflict at h
  cases mlist with
  | nil => exact absurd h (by simp)
  | cons m0 mrest =>
    dsimp only at h
    split at h
    · exact absurd h (by simp)
    split at h
    · exact absurd h (by simp)
    injection h with h
    subst h
    exact ⟨rfl, rfl, rfl⟩

/-! C10: every match is a NAME match. -/

lemma find_matches_go_name (M : FuzzMetrics) (config : SimilarityConfig)
    (b : String) (bvs : List String) (t : ℚ) (pol : String) :
    ∀ (cs : List String) (ms : List ConflictMatch),
      find_matches_go M config b bvs t pol cs = Except.ok ms →
      ∀ m ∈ ms, m.match_type = MatchType.NAME := by
  intro cs
  induction cs with
  | nil =>
    intro ms h
    unfold find_matches_go at h
    injection h with h
    subst h
    intro m hm
    cases hm
  | cons c cs ih =>
    intro ms h
    unfold find_matches_go at h
    dsimp only at h
    split at h
    · cases hmk : mkConflictMatch b c
        (best_similarity M config bvs (get_entity_variants c)) MatchType.NAME pol with
      | error e => rw [hmk] at h; exact absurd h (by simp)
      | ok m0 =>
        rw [hmk] at h
        cases hrec : find_matches_go M config b bvs t pol cs with
        | error e => rw [hrec] at h; exact absurd h (by simp)
        | ok ms' =>
          rw [hrec] at h
          injection h with h
          subst h
          intro m hm
          rcases List.mem_cons.mp hm with rfl | hm'
          · rw [mkConflictMatch_ok_fields hmk]
          · exact ih ms' hrec m hm'
    · exact ih ms h

/-- C10: find_matches stamps every emitted match NAME (even for candidates
drawn from the Employer column), and consequently EMPLOYER never appears in
an aggregated conflict's match_types. -/
theorem c10_match_type_name :
    (∀ (M : FuzzMetrics) (config : SimilarityConfig) (b : String)
        (cs : List String) (t : ℚ) (pol : String) (ms : List ConflictMatch),
      find_matches M config b cs t pol = Except.ok ms →
      ∀ m ∈ ms, m.match_type = MatchType.NAME) ∧
    (∀ (canonical : String) (mlist : List ConflictMatch)
        (minutes : List MinutesRow) (rows : List ContributionRow)
        (c : AggregatedConflict),
      (∀ m ∈ mlist, m.match_type = MatchType.NAME) →
      create_aggregated_conflict canonical mlist minutes rows = Except.ok c →
      MatchType.EMPLOYER ∉ c.match_types) := by
  constructor
  · intro M config b cs t pol ms h
    exact find_matches_go_name M config b (get_entity_variants b) t pol cs ms h
  · intro canonical mlist minutes rows c hall h hmem
    have hsub : c.match_types = (mlist.map ConflictMatch.match_type).dedup := by
      unfold create_aggregated_conflict at h
      cases mlist with
      | nil => exact absurd h (by simp)
      | cons m0 mrest =>
        dsimp only at h
        split at h
        · exact absurd h (by simp)
        split at h
        · exact absurd h (by simp)
        injection h with h
        subst h
        rfl
    rw [hsub] at hmem
    rcases List.mem_map.mp (List.mem_dedup.mp hmem) with ⟨m, hm, hmt⟩
    have := hall m hm
    rw [this] at hmt
    cases hmt

/-! C2: similarity score range. -/

lemma modelMetrics_bounded : MetricsBounded modelMetrics := by
  intro a b
  unfold modelMetrics
  dsimp only
  by_cases h : a = b
  · simp [h]
  · simp [h]

lemma default_weights_ok : WeightsOk defaultSimilarityConfig := by
  unfold WeightsOk defaultSimilarityConfig
  norm_num

/-- Score bounds shared by the range and matching claims: with metrics in
`[0, 100]` and nonnegative weights summing to at most 1, every similarity
lies in `[0, 100]`. -/
lemma calc_sim_bounds (M : FuzzMetrics) (config : SimilarityConfig)
    (hM : MetricsBounded M) (hw : WeightsOk config) (e1 e2 : String) :
    0 ≤ calculate_similarity M config e1 e2 ∧
      calculate_similarity M config e1 e2 ≤ 100 := by
  unfold calculate_similarity
  split
  · norm_num
  · obtain ⟨hw1, hw2, hw3, hw4, hsum⟩ := hw
    obtain ⟨⟨h1a, h1b⟩, ⟨h2a, h2b⟩, ⟨h3a, h3b⟩, ⟨h4a, h4b⟩⟩ :=
      hM (normalize_entity e1) (normalize_entity e2)
    constructor
    · exact add_nonneg (add_nonneg (add_nonneg (mul_nonneg h1a hw1)
        (mul_nonneg h2a hw2)) (mul_nonneg h3a hw3)) (mul_nonneg h4a hw4)
    · have t1 := mul_le_mul_of_nonneg_right h1b hw1
      have t2 := mul_le_mul_of_nonneg_right h2b hw2
      have t3 := mul_le_mul_of_nonneg_right h3b hw3
      have t4 := mul_le_mul_of_nonneg_right h4b hw4
      dsimp only
      linarith

/-- C2 counterexample: the tolerance check accepts weights summing to
1.0009, and on two identical strings (where every rapidfuzz metric is 100)
the score is 100.09 > 100, so acceptance at construction time does not
bound the score by 100. -/
theorem c2_similarity_range_counterexample :
    mkSimilarityConfig (4/10) (3/10) (2/10) (1009/10000) 5 3 2 =
      Except.ok overToleranceConfig ∧
    100 < calculate_similarity modelMetrics overToleranceConfig "abc" "abc" := by
  constructor
  · rw [mkSimilarityConfig, if_neg]
    · rfl
    · rw [not_lt, show (4:ℚ)/10 + 3/10 + 2/10 + 1009/10000 - 1 = 9/10000 by norm_num,
        abs_of_nonneg (by norm_num : (0:ℚ) ≤ 9/10000)]
      norm_num
  · have hn : normalize_entity "abc" = "abc" := by decide
    simp only [calculate_similarity, hn, modelMetrics, overToleranceConfig]
    split
    · next h => exact absurd h (by decide)
    · norm_num

/-- C2 amended: the score does lie in `[0, 100]` for every configuration
whose weights are nonnegative and sum to at most 1 (the production default
sums to exactly 1), given the metrics' documented `[0, 100]` range. -/
theorem c2_similarity_range_amended (M : FuzzMetrics) (config : SimilarityConfig)
    (hM : MetricsBounded M) (hw : WeightsOk config) (e1 e2 : String) :
    0 ≤ calculate_similarity M config e1 e2 ∧
      calculate_similarity M config e1 e2 ≤ 100 :=
  calc_sim_bounds M config hM hw e1 e2

/-- Witness for C2 at the default configuration and the model metrics. -/
theorem c2_similarity_range_witness :
    0 ≤ calculate_similarity modelMetrics defaultSimilarityConfig "Athens Services" "Athens Services, Inc." ∧
      calculate_similarity modelMetrics defaultSimilarityConfig "Athens Services" "Athens Services, Inc." ≤ 100 :=
  c2_similarity_range_amended modelMetrics defaultSimilarityConfig
    modelMetrics_bounded default_weights_ok "Athens Services" "Athens Services, Inc."

/-! C4: the Athens Services scenario. -/

/-- C4 counterexample: the grouping pipeline does not send "Athens Services"
to "athens services": the word "services" is itself in the business-suffix
set and is stripped, leaving "athens". -/
theorem c4_athens_counterexample :
    normalize_entity_name "Athens Services" ≠ "athens services" ∧
    normalize_entity_name "Athens Services" = "athens" := by
  exact ⟨by decide, by decide⟩

/-- C4 amended: both names normalize to "athens" under the grouping
pipeline, and group_related_entities still puts the two raw names into one
single EntityGroup. -/
theorem c4_athens_amended :
    normalize_entity_name "Athens Services" = "athens" ∧
    normalize_entity_name "Athens Services, Inc." = "athens" ∧
    (group_related_entities ["Athens Services", "Athens Services, Inc."]).map
        EntityGroup.original_names = [["Athens Services", "Athens Services, Inc."]] := by
  exact ⟨by decide, by decide, by decide⟩

/-! C5: find_matches emission. -/

lemma fold_inner_bounds (M : FuzzMetrics) (config : SimilarityConfig)
    (hM : MetricsBounded M) (hw : WeightsOk config) (bv : String) :
    ∀ (cvs : List String) (acc : ℚ), 0 ≤ acc → acc ≤ 100 →
      0 ≤ cvs.foldl (fun a2 cv =>
          let sim := calculate_similarity M config bv cv
          if sim > a2 then sim else a2) acc ∧
        cvs.foldl (fun a2 cv =>
          let sim := calculate_similarity M config bv cv
          if sim > a2 then sim else a2) acc ≤ 100 := by
  intro cvs
  induction cvs with
  | nil => intro acc h0 h1; exact ⟨h0, h1⟩
  | cons cv cvs ih =>
    intro acc h0 h1
    simp only [List.foldl_cons]
    have hb := calc_sim_bounds M config hM hw bv cv
    by_cases hgt : calculate_similarity M config bv cv > acc
    · simp only [hgt, if_pos]
      exact ih _ hb.1 hb.2
    · simp only [hgt, if_neg, not_false_iff]
      exact ih _ h0 h1

lemma best_similarity_bounds (M : FuzzMetrics) (config : SimilarityConfig)
    (hM : MetricsBounded M) (hw : WeightsOk config) (bvs cvs : List String) :
    0 ≤ best_similarity M config bvs cvs ∧ best_similarity M config bvs cvs ≤ 100 := by
  unfold best_similarity
  suffices h : ∀ (l : List String) (acc : ℚ), 0 ≤ acc → acc ≤ 100 →
      0 ≤ l.foldl (fun a bv => cvs.foldl (fun a2 cv =>
          let sim := calculate_similarity M config bv cv
          if sim > a2 then sim else a2) a) acc ∧
        l.foldl (fun a bv => cvs.foldl (fun a2 cv =>
          let sim := calculate_similarity M config bv cv
          if sim > a2 then sim else a2) a) acc ≤ 100 by
    exact h bvs 0 le_rfl (by norm_num)
  intro l
  induction l with
  | nil => intro acc h0 h1; exact ⟨h0, h1⟩
  | cons bv l ih =>
    intro acc h0 h1
    simp only [List.foldl_cons]
    have hstep := fold_inner_bounds M config hM hw bv cvs acc h0 h1
    exact ih _ hstep.1 hstep.2

lemma mkConflictMatch_ok_of {b c : String} {sim : ℚ} {mt : MatchType} {pol : String}
    (h01 : 0 ≤ sim ∧ sim ≤ 100) (hb : stripPy b.data ≠ [])
    (hc : stripPy c.data ≠ []) :
    mkConflictMatch b c sim mt pol = Except.ok ⟨b, c, sim, mt, pol⟩ := by
  unfold mkConflictMatch
  rw [if_neg (not_not_intro h01), if_neg hb, if_neg hc]

/-- C5 counterexample: at threshold 0 with an empty beneficiary and an empty
candidate the candidate's best variant-pair similarity is 0 and meets the
threshold, yet find_matches raises in the ConflictMatch constructor
instead of emitting that match. -/
theorem c5_find_matches_counterexample :
    best_similarity modelMetrics defaultSimilarityConfig
      (get_entity_variants "") (get_entity_variants "") = 0 ∧
    find_matches modelMetrics defaultSimilarityConfig "" [""] 0 "" =
      Except.error "Beneficiary cannot be empty" := by
  exact ⟨rfl, rfl⟩

lemma find_matches_go_eq (M : FuzzMetrics) (config : SimilarityConfig)
    (hM : MetricsBounded M) (hw : WeightsOk config) (b : String) (t : ℚ)
    (pol : String) (hb : stripPy b.data ≠ []) :
    ∀ cs : List String, (∀ c ∈ cs, stripPy c.data ≠ []) →
      find_matches_go M config b (get_entity_variants b) t pol cs =
        Except.ok (cs.filterMap fun c =>
          let best := best_similarity M config (get_entity_variants b)
            (get_entity_variants c)
          if best ≥ t then some ⟨b, c, best, MatchType.NAME, pol⟩ else none) := by
  intro cs
  induction cs with
  | nil => intro _; rfl
  | cons c cs ih =>
    intro hcs
    have hcsc : stripPy c.data ≠ [] := hcs c (List.mem_cons_self _ _)
    have hcs' : ∀ x ∈ cs, stripPy x.data ≠ [] :=
      fun x hx => hcs x (List.mem_cons_of_mem _ hx)
    unfold find_matches_go
    dsimp only
    rw [List.filterMap_cons]
    by_cases hth : best_similarity M config (get_entity_variants b)
        (get_entity_variants c) ≥ t
    · rw [if_pos hth, if_pos hth,
        mkConflictMatch_ok_of
          (best_similarity_bounds M config hM hw _ _) hb hcsc,
        ih hcs']
    · rw [if_neg hth, if_neg hth, ih hcs']

/-- C5 amended: provided the beneficiary and every candidate contain a
non-whitespace character (so the ConflictMatch constructor cannot raise)
and the metrics and weights are in their documented ranges, find_matches
returns exactly one NAME match per candidate whose best variant-pair
similarity meets the threshold — carrying the original un-normalized
beneficiary and candidate strings and that best score — and no match for
any other candidate. -/
theorem c5_find_matches_amended (M : FuzzMetrics) (config : SimilarityConfig)
    (hM : MetricsBounded M) (hw : WeightsOk config) (b : String)
    (cs : List String) (t : ℚ) (pol : String) (hb : stripPy b.data ≠ [])
    (hcs : ∀ c ∈ cs, stripPy c.data ≠ []) :
    find_matches M config b cs t pol =
      Except.ok (cs.filterMap fun c =>
        let best := best_similarity M config (get_entity_variants b)
          (get_entity_variants c)
        if best ≥ t then some ⟨b, c, best, MatchType.NAME, pol⟩ else none) :=
  find_matches_go_eq M config hM hw b t pol hb cs hcs

/-- Witness for C5 at the default configuration, the model metrics and two
concrete candidates. -/
theorem c5_find_matches_witness :
    find_matches modelMetrics defaultSimilarityConfig "Athens Services"
        ["Athens Services", "Riverside Cement"] 85 "Jane Roe" =
      Except.ok ((["Athens Services", "Riverside Cement"] : List String).filterMap fun c =>
        let best := best_similarity modelMetrics defaultSimilarityConfig
          (get_entity_variants "Athens Services") (get_entity_variants c)
        if best ≥ 85 then
          some ⟨"Athens Services", c, best, MatchType.NAME, "Jane Roe"⟩
        else none) :=
  c5_find_matches_amended modelMetrics defaultSimilarityConfig
    modelMetrics_bounded default_weights_ok "Athens Services"
    ["Athens Services", "Riverside Cement"] 85 "Jane Roe" (by decide) (by decide)

/-! C9 witness. -/

lemma agg_example :
    create_aggregated_conflict "b" [⟨"b", "x", 90, MatchType.NAME, "p"⟩] [] [] =
      Except.ok ⟨"b", ["b"], ["x"], "x", 0, 0, 0, [], [], [MatchType.NAME],
        90, 90, 90, "p"⟩ := by
  unfold create_aggregated_conflict
  norm_num [find_contribution_details, find_vote_details, pullForContributor,
    pullForBeneficiary, create_contributor_summary, List.dedup_cons_of_not_mem]

/-- Witness for C9 at a single-match conflict with no data rows. -/
theorem c9_aggregation_conservation_witness :
    (⟨"b", ["b"], ["x"], "x", 0, 0, 0, [], [], [MatchType.NAME], 90, 90, 90, "p"⟩ :
        AggregatedConflict).contribution_count =
      (⟨"b", ["b"], ["x"], "x", 0, 0, 0, [], [], [MatchType.NAME], 90, 90, 90, "p"⟩ :
        AggregatedConflict).contribution_details.length ∧
    (⟨"b", ["b"], ["x"], "x", 0, 0, 0, [], [], [MatchType.NAME], 90, 90, 90, "p"⟩ :
        AggregatedConflict).total_contributions =
      ((⟨"b", ["b"], ["x"], "x", 0, 0, 0, [], [], [MatchType.NAME], 90, 90, 90, "p"⟩ :
        AggregatedConflict).contribution_details.map ContributionDetail.amount).sum ∧
    (⟨"b", ["b"], ["x"], "x", 0, 0, 0, [], [], [MatchType.NAME], 90, 90, 90, "p"⟩ :
        AggregatedConflict).vote_count =
      (⟨"b", ["b"], ["x"], "x", 0, 0, 0, [], [], [MatchType.NAME], 90, 90, 90, "p"⟩ :
        AggregatedConflict).vote_details.length :=
  c9_aggregation_conservation "b" [⟨"b", "x", 90, MatchType.NAME, "p"⟩] [] [] _
    agg_example

/-! C1: grouping as a partition. -/

lemma insertEntity_flat_perm (m : List (String × List String)) (k : String) (e : String) :
    ((insertEntity m k e).flatMap Prod.snd).Perm (m.flatMap Prod.snd ++ [e]) := by
  induction m with
  | nil => simp [insertEntity]
  | cons p rest ih =>
    obtain ⟨k', es⟩ := p
    unfold insertEntity
    by_cases hk : k' = k
    · rw [if_pos hk]
      simp only [List.flatMap_cons, List.append_assoc]
      refine List.Perm.append_left es ?_
      exact List.perm_append_comm
    · rw [if_neg hk]
      simp only [List.flatMap_cons, List.append_assoc]
      exact ih.append_left es

lemma insertEntity_keys_sub (k e : String) :
    ∀ (m : List (String × List String)),
      ∀ x ∈ (insertEntity m k e).map Prod.fst, x ∈ m.map Prod.fst ∨ x = k := by
  intro m
  induction m with
  | nil =>
    intro x hx
    simp only [insertEntity, List.map_cons, List.map_nil, List.mem_singleton] at hx
    exact Or.inr hx
  | cons q rest ih =>
    obtain ⟨k', es⟩ := q
    intro x hx
    unfold insertEntity at hx
    by_cases h2 : k' = k
    · rw [if_pos h2] at hx
      subst h2
      rcases List.mem_cons.mp hx with rfl | hx'
      · exact Or.inl (List.mem_cons_self _ _)
      · exact Or.inl (List.mem_cons_of_mem _ hx')
    · rw [if_neg h2] at hx
      rcases List.mem_cons.mp hx with rfl | hx'
      · exact Or.inl (List.mem_cons_self _ _)
      · rcases ih x hx' with h | h
        · exact Or.inl (List.mem_cons_of_mem _ h)
        · exact Or.inr h

lemma insertEntity_WF {k e : String} (hk : k ≠ "")
    (he : normalize_entity_name e = k) :
    ∀ (m : List (String × List String)), GroupsWF m → GroupsWF (insertEntity m k e) := by
  intro m
  induction m with
  | nil =>
    intro _
    refine ⟨?_, by simp [insertEntity]⟩
    intro p hp
    simp only [insertEntity, List.mem_singleton] at hp
    subst hp
    exact ⟨hk, by simp, by simp [he]⟩
  | cons q rest ih =>
    obtain ⟨k', es⟩ := q
    intro hwf
    obtain ⟨hall, hnd⟩ := hwf
    have hnd' : (rest.map Prod.fst).Nodup := (List.nodup_cons.mp hnd).2
    have hall' : ∀ p ∈ rest, p.1 ≠ "" ∧ p.2 ≠ [] ∧
        ∀ x ∈ p.2, normalize_entity_name x = p.1 :=
      fun p hp => hall p (List.mem_cons_of_mem _ hp)
    unfold insertEntity
    by_cases hkk : k' = k
    · rw [if_pos hkk]
      subst hkk
      constructor
      · intro p hp
        rcases List.mem_cons.mp hp with rfl | hp'
        · obtain ⟨h1, _h2, h3⟩ := hall _ (List.mem_cons_self _ _)
          refine ⟨h1, by simp, ?_⟩
          intro x hx
          rcases List.mem_append.mp hx with hx' | hx'
          · exact h3 x hx'
          · rw [List.mem_singleton.mp hx']
            exact he
        · exact hall _ (List.mem_cons_of_mem _ hp')
      · simpa using hnd
    · rw [if_neg hkk]
      have hrec := ih ⟨hall', hnd'⟩
      constructor
      · intro p hp
        rcases List.mem_cons.mp hp with rfl | hp'
        · exact hall _ (List.mem_cons_self _ _)
        · exact hrec.1 p hp'
      · rw [List.map_cons, List.nodup_cons]
        refine ⟨?_, hrec.2⟩
        intro hmem
        rcases insertEntity_keys_sub k e rest k' hmem with h | h
        · exact (List.nodup_cons.mp hnd).1 h
        · exact hkk h

lemma insertStep_WF {acc : List (String × List String)} {e : String}
    (h : GroupsWF acc) : GroupsWF (insertStep acc e) := by
  unfold insertStep
  dsimp only
  by_cases hn : normalize_entity_name e ≠ ""
  · rw [if_pos hn]
    exact insertEntity_WF hn rfl acc h
  · rw [if_neg hn]
    exact h

lemma insertStep_flat_perm (acc : List (String × List String)) (e : String) :
    ((insertStep acc e).flatMap Prod.snd).Perm
      (acc.flatMap Prod.snd ++ if normalize_entity_name e ≠ "" then [e] else []) := by
  unfold insertStep
  dsimp only
  by_cases hn : normalize_entity_name e ≠ ""
  · rw [if_pos hn, if_pos hn]
    exact insertEntity_flat_perm acc _ e
  · rw [if_neg hn, if_neg hn]
    simp

lemma foldl_insertStep_WF : ∀ (es : List String) (acc : List (String × List String)),
    GroupsWF acc → GroupsWF (es.foldl insertStep acc) := by
  intro es
  induction es with
  | nil => intro acc h; exact h
  | cons e es ih =>
    intro acc h
    rw [List.foldl_cons]
    exact ih _ (insertStep_WF h)

lemma foldl_insertStep_flat_perm :
    ∀ (es : List String) (acc : List (String × List String)),
      ((es.foldl insertStep acc).flatMap Prod.snd).Perm
        (acc.flatMap Prod.snd ++ es.filter fun e => normalize_entity_name e != "") := by
  intro es
  induction es with
  | nil => intro acc; simp
  | cons e es ih =>
    intro acc
    rw [List.foldl_cons]
    refine (ih (insertStep acc e)).trans ?_
    refine ((insertStep_flat_perm acc e).append_right _).trans ?_
    rw [List.append_assoc]
    by_cases hn : normalize_entity_name e = ""
    · have hb : (normalize_entity_name e != "") = false := by
        simp [bne, hn]
      rw [if_neg (by simpa using hn), List.filter_cons, hb]
      simp
    · have hb : (normalize_entity_name e != "") = true := by
        simp [bne, hn]
      rw [if_pos hn, List.filter_cons, hb]
      simp

lemma WF_eq_of_mem : ∀ (m : List (String × List String)), GroupsWF m →
    ∀ p ∈ m, ∀ p' ∈ m, p.1 = p'.1 → p = p' := by
  intro m
  induction m with
  | nil => intro _ p hp; cases hp
  | cons q rest ih =>
    intro hwf p hp p' hp' hk
    obtain ⟨hall, hnd⟩ := hwf
    have hnd1 := (List.nodup_cons.mp hnd).1
    have hwf' : GroupsWF rest :=
      ⟨fun x hx => hall x (List.mem_cons_of_mem _ hx), (List.nodup_cons.mp hnd).2⟩
    rcases List.mem_cons.mp hp with rfl | hp2
    · rcases List.mem_cons.mp hp' with rfl | hp2'
      · rfl
      · exact absurd (hk ▸ List.mem_map_of_mem Prod.fst hp2') hnd1
    · rcases List.mem_cons.mp hp' with rfl | hp2'
      · exact absurd (hk ▸ List.mem_map_of_mem Prod.fst hp2) hnd1
      · exact ih hwf' p hp2 p' hp2'  hk

lemma groups_flat_eq (es : List String) :
    (group_related_entities es).flatMap EntityGroup.original_names =
      (buildNormalizedEntities es).flatMap Prod.snd := by
  unfold group_related_entities
  induction buildNormalizedEntities es with
  | nil => rfl
  | cons p m ih => simp only [List.map_cons, List.flatMap_cons, ih]

/-- C1 counterexample: on the input ["!!!"] the grouping pipeline
normalizes the only name to the empty string, group_related_entities drops
it, and the union of the returned groups' original_names is empty — not a
permutation of the input, so the partition claim fails for names whose
normalization is empty. -/
theorem c1_grouping_partition_counterexample :
    ¬ ((group_related_entities ["!!!"]).flatMap EntityGroup.original_names).Perm
      ["!!!"] := by decide

/-- C1 amended: grouping partitions exactly the input names whose grouping
normalization is non-empty: their multiset is the union of the groups'
original_names, each appears in exactly one group, and a name normalizing
to the empty string appears in no group. -/
theorem c1_grouping_partition_amended (es : List String) :
    ((group_related_entities es).flatMap EntityGroup.original_names).Perm
      (es.filter fun e => normalize_entity_name e != "") ∧
    (∀ e ∈ es, normalize_entity_name e ≠ "" →
      ∃ g ∈ group_related_entities es, e ∈ g.original_names ∧
        ∀ g' ∈ group_related_entities es, e ∈ g'.original_names → g' = g) ∧
    (∀ e : String, normalize_entity_name e = "" →
      ∀ g ∈ group_related_entities es, e ∉ g.original_names) := by
  have hwf : GroupsWF (buildNormalizedEntities es) :=
    foldl_insertStep_WF es [] ⟨by simp, by simp⟩
  have hperm : ((group_related_entities es).flatMap EntityGroup.original_names).Perm
      (es.filter fun e => normalize_entity_name e != "") := by
    rw [groups_flat_eq]
    simpa using foldl_insertStep_flat_perm es []
  refine ⟨hperm, ?_, ?_⟩
  · intro e hes hne
    have hef : e ∈ es.filter fun e => normalize_entity_name e != "" :=
      List.mem_filter.mpr ⟨hes, by simp [bne, hne]⟩
    have heflat : e ∈ (buildNormalizedEntities es).flatMap Prod.snd := by
      have := hperm.mem_iff.mpr hef
      rwa [groups_flat_eq] at this
    rcases List.mem_flatMap.mp heflat with ⟨p, hpm, hpe⟩
    refine ⟨⟨select_canonical_name p.2, p.2.dedup, p.2, 1⟩, ?_, hpe, ?_⟩
    · exact List.mem_map.mpr ⟨p, hpm, rfl⟩
    · intro g' hg' heg'
      rcases List.mem_map.mp hg' with ⟨p', hp'm, rfl⟩
      have hp'e : e ∈ p'.2 := heg'
      have hkey : p'.1 = p.1 := by
        have h1 := (hwf.1 p hpm).2.2 e hpe
        have h2 := (hwf.1 p' hp'm).2.2 e hp'e
        rw [← h1, ← h2]
      have : p' = p := WF_eq_of_mem _ hwf p' hp'm p hpm hkey
      rw [this]
  · intro e hne g hg heg
    rcases List.mem_map.mp hg with ⟨p, hpm, rfl⟩
    have : normalize_entity_name e = p.1 := (hwf.1 p hpm).2.2 e heg
    exact (hwf.1 p hpm).1 (by rw [← this, hne])

/-! C3: idempotence of the two normalization pipelines.  The general claim
fails; the fixed-point lemmas below establish it on single lower-case
alphabetic words clear of the pipelines' trigger tokens. -/

lemma lowerAZ_le {c : Char} (h : isLowerAZ c = true) : 'a' ≤ c ∧ c ≤ 'z' := by
  unfold isLowerAZ at h
  simp only [Bool.and_eq_true, decide_eq_true_eq] at h
  exact h

lemma lowerAZ_ne {c d : Char} (h : isLowerAZ c = true) (hd : isLowerAZ d = false) :
    c ≠ d := by
  intro hcd
  rw [hcd] at h
  rw [h] at hd
  cases hd

lemma lowerAZ_word {c : Char} (h : isLowerAZ c = true) : isWordChar c = true := by
  unfold isWordChar
  unfold isLowerAZ at h
  rw [h]
  rfl

lemma lowerAZ_not_space {c : Char} (h : isLowerAZ c = true) : pySpace c = false := by
  unfold pySpace
  simp only [Bool.or_eq_false_iff, decide_eq_false_iff_not]
  exact ⟨⟨⟨⟨⟨lowerAZ_ne h (by decide), lowerAZ_ne h (by decide)⟩,
    lowerAZ_ne h (by decide)⟩, lowerAZ_ne h (by decide)⟩,
    lowerAZ_ne h (by decide)⟩, lowerAZ_ne h (by decide)⟩

lemma lowerAZ_lower_fix {c : Char} (h : isLowerAZ c = true) : asciiLower c = c := by
  unfold asciiLower
  rw [if_neg]
  intro hc
  simp only [Bool.and_eq_true, decide_eq_true_eq] at hc
  have h1 := (lowerAZ_le h).1
  exact absurd (le_trans h1 hc.2) (by decide)

lemma lowerAZ_keep_grouping {c : Char} (h : isLowerAZ c = true) :
    keepCharGrouping c = true := by
  unfold keepCharGrouping
  rw [lowerAZ_word h]
  rfl

lemma lowerAZ_keep_matching {c : Char} (h : isLowerAZ c = true) :
    keepCharMatching c = true := by
  unfold keepCharMatching
  rw [lowerAZ_word h]
  rfl

lemma lowerAZ_nonWordNonSpace {c : Char} (h : isLowerAZ c = true) :
    nonWordNonSpace c = false := by
  unfold nonWordNonSpace
  rw [lowerAZ_word h]
  rfl

lemma dropWhile_eq_self_of_all {p : Char → Bool} {l : List Char}
    (h : ∀ c ∈ l, p c = false) : l.dropWhile p = l := by
  cases l with
  | nil => rfl
  | cons c cs => simp [List.dropWhile_cons, h c (List.mem_cons_self _ _)]

lemma stripPy_eq_self {w : List Char} (h : ∀ c ∈ w, pySpace c = false) :
    stripPy w = w := by
  unfold stripPy
  rw [dropWhile_eq_self_of_all h,
    dropWhile_eq_self_of_all (fun c hc => h c (List.mem_reverse.mp hc)),
    List.reverse_reverse]

lemma collapseWs_eq_self {w : List Char} (h : ∀ c ∈ w, pySpace c = false) :
    collapseWs w = w := by
  unfold collapseWs
  induction w with
  | nil => rfl
  | cons c cs ih =>
    unfold collapseWsAux
    rw [h c (List.mem_cons_self _ _)]
    simp only [Bool.false_eq_true, if_false]
    rw [ih (fun x hx => h x (List.mem_cons_of_mem _ hx))]

lemma lowerL_eq_self {w : List Char} (h : ∀ c ∈ w, isLowerAZ c = true) :
    lowerL w = w := by
  unfold lowerL
  rw [List.map_congr_left (fun c hc => lowerAZ_lower_fix (h c hc))]
  exact List.map_id' w

lemma scanAux_none {m : Nat → Option Nat} (hm : ∀ i, m i = none) :
    ∀ (fuel n i : Nat), scanAux m n i fuel = [] := by
  intro fuel
  induction fuel with
  | zero => intro n i; rfl
  | succ fuel ih =>
    intro n i
    unfold scanAux
    rw [hm i]
    by_cases hni : n ≤ i
    · rw [if_pos hni]
    · rw [if_neg hni]
      exact ih n (i + 1)

lemma scanM_none {m : List Char → Nat → Option Nat} {s : List Char}
    (hm : ∀ i, m s i = none) : scanM m s = [] :=
  scanAux_none hm _ _ _

lemma replaceMatches_id {m : List Char → Nat → Option Nat} {s : List Char}
    (hm : ∀ i, m s i = none) (rep : List Char) : replaceMatches m rep s = s := by
  unfold replaceMatches
  rw [scanM_none hm]
  unfold rebuild
  exact List.drop_zero s

lemma litAt_subset {pat s : List Char} {i : Nat} (h : litAt pat s i = true) :
    ∀ c ∈ pat, c ∈ s := by
  unfold litAt at h
  have he : (s.drop i).take pat.length = pat := by
    exact eq_of_beq h
  intro c hc
  rw [← he] at hc
  exact List.drop_subset i s (List.take_subset _ _ hc)

lemma litAt_false_of_badchar {pat s : List Char} {c0 : Char} (hc0 : c0 ∈ pat)
    (hnc : c0 ∉ s) (i : Nat) : litAt pat s i = false := by
  cases hb : litAt pat s i
  · rfl
  · exact absurd (litAt_subset hb c0 hc0) hnc

lemma lower_not_mem_of_bad {w : List Char} (hw : ∀ c ∈ w, isLowerAZ c = true)
    {c0 : Char} (hc0 : isLowerAZ c0 = false) : c0 ∉ w := by
  intro hmem
  rw [hw c0 hmem] at hc0
  cases hc0

lemma wordPatAt_none_of_badchar {pat s : List Char} {c0 : Char} (hc0 : c0 ∈ pat)
    (hnc : c0 ∉ s) (i : Nat) : wordPatAt pat s i = none := by
  unfold wordPatAt
  rw [litAt_false_of_badchar hc0 hnc i]
  simp

lemma get?_word_of_lower {w : List Char} (hw : ∀ c ∈ w, isLowerAZ c = true)
    {j : Nat} {c : Char} (hj : w.get? j = some c) : isWordChar c = true :=
  lowerAZ_word (hw c (List.get?_mem hj))

lemma boundaryBefore_false_of_get {s : List Char} {j : Nat} {c : Char}
    (hgj : s.get? j = some c) (hc : isWordChar c = true) :
    boundaryBefore s (j + 1) = false := by
  show (match s.get? j with | none => true | some c => !isWordChar c) = false
  rw [hgj]
  show (!isWordChar c) = false
  rw [hc]
  rfl

lemma boundaryAfter_false_of_get {s : List Char} {i : Nat} {c : Char}
    (hgi : s.get? i = some c) (hc : isWordChar c = true) :
    boundaryAfter s i = false := by
  unfold boundaryAfter
  rw [hgi]
  show (!isWordChar c) = false
  rw [hc]
  rfl

lemma wordPatAt_none_of {pat w : List Char} (hp : pat ≠ [])
    (hw : ∀ c ∈ w, isLowerAZ c = true) (hne : w ≠ pat) (i : Nat) :
    wordPatAt pat w i = none := by
  unfold wordPatAt
  rw [if_neg]
  intro h
  simp only [Bool.and_eq_true] at h
  obtain ⟨⟨hbefore, hlit⟩, hafter⟩ := h
  -- the leading boundary forces i = 0 or a start beyond the string
  cases i with
  | succ j =>
    cases hgj : w.get? j with
    | some c =>
      rw [boundaryBefore_false_of_get hgj (get?_word_of_lower hw hgj)] at hbefore
      cases hbefore
    | none =>
      have hlen : w.length ≤ j := List.get?_eq_none.mp hgj
      unfold litAt at hlit
      rw [List.drop_eq_nil_of_le (le_trans hlen (Nat.le_succ j)),
        List.take_nil] at hlit
      exact hp (eq_of_beq hlit).symm
  | zero =>
    cases hge : w.get? (0 + pat.length) with
    | some c =>
      rw [boundaryAfter_false_of_get hge (get?_word_of_lower hw hge)] at hafter
      cases hafter
    | none =>
      have hlen : w.length ≤ pat.length := by
        have := List.get?_eq_none.mp hge
        simpa using this
      unfold litAt at hlit
      rw [List.drop_zero, List.take_of_length_le hlen] at hlit
      exact hne (eq_of_beq hlit)

lemma dbaPatAt_none_of {w : List Char} (hw : ∀ c ∈ w, isLowerAZ c = true)
    (hne : w ≠ String.data "dba") (i : Nat) : dbaPatAt w i = none := by
  have hnodot : '.' ∉ w := lower_not_mem_of_bad hw (by decide)
  unfold dbaPatAt
  split
  · rename_i hbefore
    rw [List.findSome?_eq_none_iff]
    intro v hv
    have hvd := (by decide :
      ∀ u ∈ dbaVariants, '.' ∈ u ∨ u = String.data "dba") v hv
    rcases hvd with hdot | rfl
    · rw [litAt_false_of_badchar hdot hnodot i]
      rfl
    · -- the dotless expansion: its trailing check is the word boundary, so
      -- a match would make the whole word equal "dba"
      have hword := @wordPatAt_none_of (String.data "dba") w (by decide) hw hne i
      unfold wordPatAt at hword
      have htail : dbaTailOk (String.data "dba") w (i + (String.data "dba").length) =
          boundaryAfter w (i + (String.data "dba").length) := by
        unfold dbaTailOk
        rw [if_neg (by decide)]
      cases hlit : litAt (String.data "dba") w i with
      | false => rfl
      | true =>
        cases hafter : boundaryAfter w (i + (String.data "dba").length) with
        | false => rw [htail, hafter]; rfl
        | true =>
          exfalso
          rw [if_pos (by rw [hbefore, hlit, hafter]; rfl)] at hword
          exact absurd hword (by simp)
  · rfl

lemma containsSub_false_of_badchar {pat s : List Char} {c0 : Char} (hc0 : c0 ∈ pat)
    (hnc : c0 ∉ s) : containsSub pat s = false := by
  unfold containsSub
  rw [List.any_eq_false]
  intro i _
  simp [litAt_false_of_badchar hc0 hnc i]

lemma contains_false_of_lower {w : List Char} (hw : ∀ c ∈ w, isLowerAZ c = true)
    {c0 : Char} (hc0 : isLowerAZ c0 = false) : w.contains c0 = false := by
  cases hb : w.contains c0
  · rfl
  · exact absurd (List.elem_iff.mp hb) (lower_not_mem_of_bad hw hc0)

lemma splitWsAux_nospace :
    ∀ (l acc : List Char), (∀ c ∈ l, pySpace c = false) →
      splitWsAux acc l = if acc.isEmpty && l.isEmpty then [] else [acc.reverse ++ l] := by
  intro l
  induction l with
  | nil =>
    intro acc h
    unfold splitWsAux
    cases acc with
    | nil => rfl
    | cons a as => simp
  | cons c cs ih =>
    intro acc h
    unfold splitWsAux
    rw [if_neg (by simp [h c (List.mem_cons_self _ _)])]
    rw [ih (c :: acc) (fun x hx => h x (List.mem_cons_of_mem _ hx))]
    simp

lemma splitWs_single {w : List Char} (hne : w ≠ [])
    (h : ∀ c ∈ w, pySpace c = false) : splitWs w = [w] := by
  unfold splitWs
  rw [splitWsAux_nospace w [] h]
  cases w with
  | nil => exact absurd rfl hne
  | cons c cs => simp

lemma joinWords_single (w : List Char) : joinWords [w] = w := by
  simp [joinWords, List.intercalate]

lemma remove_business_suffixes_fix {w : List Char} (hne : w ≠ [])
    (hlow : ∀ c ∈ w, isLowerAZ c = true) : remove_business_suffixes w = w := by
  unfold remove_business_suffixes
  rw [splitWs_single hne (fun c hc => lowerAZ_not_space (hlow c hc))]
  dsimp only
  rw [List.filter_cons]
  by_cases hq : (!business_suffixes.contains (lowerL (rstripAny (String.data ".,;:") w))) = true
  · rw [if_pos hq]
    simp only [List.filter_nil, List.isEmpty_cons, Bool.false_eq_true, if_false]
    exact joinWords_single w
  · rw [if_neg hq]
    rfl

lemma remove_stop_words_fix {w : List Char} (hne : w ≠ [])
    (hlow : ∀ c ∈ w, isLowerAZ c = true) : remove_stop_words w = w := by
  unfold remove_stop_words
  rw [splitWs_single hne (fun c hc => lowerAZ_not_space (hlow c hc))]
  dsimp only
  rw [List.filter_cons]
  by_cases hq : (!stop_words.contains (lowerL w)) = true
  · rw [if_pos hq]
    simp only [List.filter_nil, List.isEmpty_cons, Bool.false_eq_true, if_false]
    exact joinWords_single w
  · rw [if_neg hq]
    rfl

lemma final_cleanup_fix {w : List Char} (hlow : ∀ c ∈ w, isLowerAZ c = true) :
    final_cleanup w = w := by
  have hsp : ∀ c ∈ w, pySpace c = false := fun c hc => lowerAZ_not_space (hlow c hc)
  have h1 : List.dropWhile nonWordNonSpace w.reverse = w.reverse :=
    dropWhile_eq_self_of_all
      (fun c hc => lowerAZ_nonWordNonSpace (hlow c (List.mem_reverse.mp hc)))
  have h2 : List.dropWhile nonWordNonSpace w = w :=
    dropWhile_eq_self_of_all (fun c hc => lowerAZ_nonWordNonSpace (hlow c hc))
  unfold final_cleanup
  rw [collapseWs_eq_self hsp, stripPy_eq_self hsp]
  dsimp only
  rw [h1, List.reverse_reverse, h2]

lemma basic_clean_fix {w : List Char} (hlow : ∀ c ∈ w, isLowerAZ c = true)
    (h_st : w ≠ String.data "st") (h_ave : w ≠ String.data "ave")
    (h_rd : w ≠ String.data "rd") (h_blvd : w ≠ String.data "blvd") :
    basic_clean w = w := by
  have hsp : ∀ c ∈ w, pySpace c = false := fun c hc => lowerAZ_not_space (hlow c hc)
  unfold basic_clean
  dsimp only
  unfold replaceWordPat
  rw [lowerL_eq_self hlow, stripPy_eq_self hsp, collapseWs_eq_self hsp,
    List.filter_eq_self.mpr (fun c hc => lowerAZ_keep_grouping (hlow c hc)),
    replaceMatches_id (wordPatAt_none_of (by decide) hlow h_st) _,
    replaceMatches_id (wordPatAt_none_of (by decide) hlow h_ave) _,
    replaceMatches_id (wordPatAt_none_of (by decide) hlow h_rd) _,
    replaceMatches_id (wordPatAt_none_of (by decide) hlow h_blvd) _]

lemma handle_dba_grouping_fix {w : List Char}
    (hlow : ∀ c ∈ w, isLowerAZ c = true) (h_aka : w ≠ String.data "aka")
    (h_dba : w ≠ String.data "dba") : handle_dba_patterns w = w := by
  have hsp : ' ' ∉ w := lower_not_mem_of_bad hlow (by decide)
  have s1 : scanM (wordPatAt (String.data "doing business as")) w = [] :=
    scanM_none (wordPatAt_none_of_badchar (by decide) hsp)
  have s2 : scanM dbaPatAt w = [] := scanM_none (dbaPatAt_none_of hlow h_dba)
  have s3 : scanM (wordPatAt (String.data "aka")) w = [] :=
    scanM_none (wordPatAt_none_of (by decide) hlow h_aka)
  have s4 : scanM (wordPatAt (String.data "also known as")) w = [] :=
    scanM_none (wordPatAt_none_of_badchar (by decide) hsp)
  have s5 : scanM (wordPatAt (String.data "operating as")) w = [] :=
    scanM_none (wordPatAt_none_of_badchar (by decide) hsp)
  have s6 : scanM (wordPatAt (String.data "trading as")) w = [] :=
    scanM_none (wordPatAt_none_of_badchar (by decide) hsp)
  unfold handle_dba_patterns dba_patterns_grouping
  simp only [handle_dba_patterns_go, s1, s2, s3, s4, s5, s6, afterLastMatch,
    List.getLast?_nil]

lemma handle_dba_matching_fix {w : List Char}
    (hlow : ∀ c ∈ w, isLowerAZ c = true) (h_aka : w ≠ String.data "aka")
    (h_dba : w ≠ String.data "dba") :
    handle_dba_matching_go w dba_patterns_matching = w := by
  have hsp : ' ' ∉ w := lower_not_mem_of_bad hlow (by decide)
  have s1 : scanM (wordPatAt (String.data "doing business as")) w = [] :=
    scanM_none (wordPatAt_none_of_badchar (by decide) hsp)
  have s2 : scanM dbaPatAt w = [] := scanM_none (dbaPatAt_none_of hlow h_dba)
  have s3 : scanM (wordPatAt (String.data "aka")) w = [] :=
    scanM_none (wordPatAt_none_of (by decide) hlow h_aka)
  have s4 : scanM (wordPatAt (String.data "also known as")) w = [] :=
    scanM_none (wordPatAt_none_of_badchar (by decide) hsp)
  unfold dba_patterns_matching
  simp only [handle_dba_matching_go, s1, s2, s3, s4, afterLastMatch,
    List.getLast?_nil]

lemma handle_slash_fix {w : List Char} (hlow : ∀ c ∈ w, isLowerAZ c = true) :
    handle_slash w = w := by
  unfold handle_slash
  rw [if_neg (by simp [lower_not_mem_of_bad hlow (show isLowerAZ '/' = false by decide)])]

lemma handle_of_fix {w : List Char} (hlow : ∀ c ∈ w, isLowerAZ c = true) :
    handle_of w = w := by
  have hsp : ' ' ∉ w := lower_not_mem_of_bad hlow (by decide)
  unfold handle_of
  rw [if_neg (by simp [containsSub_false_of_badchar (by decide : ' ' ∈ String.data " of ") hsp])]

lemma seiu_expand_fix {w : List Char} (hlow : ∀ c ∈ w, isLowerAZ c = true) :
    seiu_expand w = w := by
  have hsp : ' ' ∉ w := lower_not_mem_of_bad hlow (by decide)
  unfold seiu_expand
  rw [if_neg (by simp [litAt_false_of_badchar (by decide : ' ' ∈ String.data "seiu ") hsp 0])]

lemma union_noise_fix {w : List Char}
    (hu : containsSub (String.data "union") w = false) : union_noise w = w := by
  unfold union_noise
  rw [if_neg (by simp [hu])]

/-- The grouping pipeline fixes every single lower-case alphabetic word
other than its abbreviation and DBA trigger tokens. -/
lemma normalize_entity_nameL_fix {w : List Char} (hne : w ≠ [])
    (hlow : ∀ c ∈ w, isLowerAZ c = true)
    (h_st : w ≠ String.data "st") (h_ave : w ≠ String.data "ave")
    (h_rd : w ≠ String.data "rd") (h_blvd : w ≠ String.data "blvd")
    (h_aka : w ≠ String.data "aka") (h_dba : w ≠ String.data "dba") :
    normalize_entity_nameL w = w := by
  have hsp : ∀ c ∈ w, pySpace c = false := fun c hc => lowerAZ_not_space (hlow c hc)
  unfold normalize_entity_nameL
  rw [if_neg]
  · rw [basic_clean_fix hlow h_st h_ave h_rd h_blvd,
      handle_dba_grouping_fix hlow h_aka h_dba, handle_slash_fix hlow,
      remove_business_suffixes_fix hne hlow, remove_stop_words_fix hne hlow,
      final_cleanup_fix hlow]
  · rw [stripPy_eq_self hsp]
    cases w with
    | nil => exact absurd rfl hne
    | cons c cs => simp

/-- The matching pipeline fixes every single lower-case alphabetic word
other than its DBA trigger tokens, when the word does not contain "union". -/
lemma normalize_matchingL_fix {w : List Char} (hne : w ≠ [])
    (hlow : ∀ c ∈ w, isLowerAZ c = true)
    (h_aka : w ≠ String.data "aka") (h_dba : w ≠ String.data "dba")
    (hu : containsSub (String.data "union") w = false) :
    normalize_entity_without_slash_handlingL w = w := by
  have hsp : ∀ c ∈ w, pySpace c = false := fun c hc => lowerAZ_not_space (hlow c hc)
  have hfil : List.filter keepCharMatching w = w :=
    List.filter_eq_self.mpr (fun c hc => lowerAZ_keep_matching (hlow c hc))
  unfold normalize_entity_without_slash_handlingL
  rw [if_neg]
  · dsimp only
    rw [lowerL_eq_self hlow, stripPy_eq_self hsp, hfil,
      handle_dba_matching_fix hlow h_aka h_dba, handle_of_fix hlow,
      seiu_expand_fix hlow, union_noise_fix hu]
  · cases w with
    | nil => exact absurd rfl hne
    | cons c cs => simp

/-- C3 counterexample: on "x dba y aka z" both pipelines first split at the
d.b.a. pattern (checked before aka), leaving "y aka z", whose second
normalization splits again at aka to "z" — so neither pipeline is
idempotent. -/
theorem c3_idempotence_counterexample :
    normalize_entity_name (normalize_entity_name "x dba y aka z") ≠
      normalize_entity_name "x dba y aka z" ∧
    normalize_entity (normalize_entity "x dba y aka z") ≠
      normalize_entity "x dba y aka z" := by
  exact ⟨by decide, by decide⟩

/-- C3 amended: neither pipeline is idempotent on all strings (the DBA
stage, among others, can expose a pattern for the second pass); both are
idempotent — indeed the identity — on single lower-case alphabetic words
apart from the trigger tokens st, ave, rd, blvd, aka, dba and words
containing "union". -/
theorem c3_idempotence_amended (w : String) (hne : w.data ≠ [])
    (hlow : ∀ c ∈ w.data, isLowerAZ c = true)
    (hex : w ∉ (["st", "ave", "rd", "blvd", "aka", "dba"] : List String))
    (hu : containsSub (String.data "union") w.data = false) :
    normalize_entity_name (normalize_entity_name w) = normalize_entity_name w ∧
    normalize_entity (normalize_entity w) = normalize_entity w := by
  have hlift : ∀ v : String, w.data = v.data → w = v := by
    intro v h
    cases w
    cases v
    exact congrArg String.mk h
  have h_st : w.data ≠ String.data "st" :=
    fun h => hex (by rw [hlift "st" h]; simp)
  have h_ave : w.data ≠ String.data "ave" :=
    fun h => hex (by rw [hlift "ave" h]; simp)
  have h_rd : w.data ≠ String.data "rd" :=
    fun h => hex (by rw [hlift "rd" h]; simp)
  have h_blvd : w.data ≠ String.data "blvd" :=
    fun h => hex (by rw [hlift "blvd" h]; simp)
  have h_aka : w.data ≠ String.data "aka" :=
    fun h => hex (by rw [hlift "aka" h]; simp)
  have h_dba : w.data ≠ String.data "dba" :=
    fun h => hex (by rw [hlift "dba" h]; simp)
  have hg : normalize_entity_name w = w := by
    unfold normalize_entity_name
    rw [normalize_entity_nameL_fix hne hlow h_st h_ave h_rd h_blvd h_aka h_dba]
  have hm : normalize_entity w = w := by
    unfold normalize_entity normalize_entity_without_slash_handling
    rw [normalize_matchingL_fix hne hlow h_aka h_dba hu]
  exact ⟨by rw [hg, hg], by rw [hm, hm]⟩

/-- Witness for C3 at the word "hello". -/
theorem c3_idempotence_witness :
    normalize_entity_name (normalize_entity_name "hello") = normalize_entity_name "hello" ∧
    normalize_entity (normalize_entity "hello") = normalize_entity "hello" :=
  c3_idempotence_amended "hello" (by decide) (by decide) (by decide) (by decide)

end PCA
